import Mathlib

/-!
# Verification of the income-tracking bot's reporting and scheduling core

Shallow embedding of the Reporting & Automated-Scheduling engine:

* `ReportingService` (src/services/business/ReportingService.ts):
  `calculateTrend`, `generateEmployeeReport`, `generatePeriodReport`,
  `parseTimeFrame`, `getEntriesInPeriod`, `generateTrendInsights`.
* `AutomatedReportingService` (src/services/automation/AutomatedReportingService.ts):
  schedule registry, `startScheduledReports`, `updateSchedule`,
  `shouldSendReport`, `executeScheduledReport`.

Modelling conventions:
* JavaScript numbers are modelled by `ℚ` (all arithmetic appearing in the
  verified code is exact on the inputs of interest: sums, differences,
  divisions and comparisons of monetary quantities).
* `Date` values flowing through the aggregation pipeline are modelled as
  integer millisecond timestamps (`ℤ`), exactly as the code compares them
  via `getTime()` subtraction and `>=`/`<=`.
* `Date` values inside `parseTimeFrame` are modelled as civil calendar
  triples with the JavaScript `new Date(y, m, d)` normalisation semantics
  (out-of-range month and day roll over, leap-year-correct).
* Fallible effects (the per-recipient delivery in the scheduler) are
  modelled with `Except`; `try`/`catch` becomes a `match` on the result.
-/

namespace TrackPendapatan

/-! ## JavaScript numeric helpers -/

/-- JavaScript `Math.round`: round half toward positive infinity. -/
def jsRound (x : ℚ) : ℤ := ⌊x + 1 / 2⌋

/-- `Math.round(x * 100) / 100`, the two-decimal rounding used by
`calculateTrend`. -/
def round2 (x : ℚ) : ℚ := (jsRound (x * 100) : ℚ) / 100

/-- JavaScript `Math.ceil` applied to an exact rational. -/
def jsCeil (q : ℚ) : ℤ := ⌈q⌉

/-- JavaScript `Math.abs`. -/
def jsAbs (q : ℚ) : ℚ := if q < 0 then -q else q

/-! ## TrendAnalyzer: `ReportingService.calculateTrend` -/

/-- The three trend directions of `TrendAnalysis.overallTrend`. -/
inductive Trend where
  | increasing
  | decreasing
  | stable
deriving DecidableEq, Repr

/-- `ReportingService.calculateTrend`, embedded over the list of
`totalIncome` values of the period points.  `periods[0]` is `headI`,
`periods[periods.length - 1]` is `getLastD 0`; both indexings are total
on the JS side because they sit behind the `length < 2` early return. -/
def calculateTrend (periods : List ℚ) : Trend × ℚ :=
  if periods.length < 2 then (Trend.stable, 0)
  else
    let firstPeriod := periods.headI
    let lastPeriod := periods.getLastD 0
    if firstPeriod = 0 ∧ lastPeriod = 0 then (Trend.stable, 0)
    else if firstPeriod = 0 then (Trend.increasing, 100)
    else
      let percentage := (lastPeriod - firstPeriod) / firstPeriod * 100
      if jsAbs percentage < 5 then (Trend.stable, round2 percentage)
      else if percentage > 0 then (Trend.increasing, round2 (jsAbs percentage))
      else (Trend.decreasing, round2 (jsAbs percentage))

/-- Trend classification as the specification words it: stable/0 for fewer
than two points or when both endpoints are zero; increasing/100 when only
the first endpoint is zero; otherwise classify
`changePercent = (last - first) / first * 100` against the 5% deadband,
reporting the signed rounded value for `stable` and the rounded magnitude
otherwise. -/
def calculateTrendSpec (totals : List ℚ) : Trend × ℚ :=
  let first := totals.headI
  let last := totals.getLastD 0
  if totals.length < 2 ∨ (first = 0 ∧ last = 0) then (Trend.stable, 0)
  else if first = 0 ∧ last ≠ 0 then (Trend.increasing, 100)
  else
    let changePercent := (last - first) / first * 100
    if jsAbs changePercent < 5 then (Trend.stable, round2 changePercent)
    else if 0 < changePercent then (Trend.increasing, round2 (jsAbs changePercent))
    else (Trend.decreasing, round2 (jsAbs changePercent))

/-- C2: trend classification follows the spec's case analysis, and the five
documented examples evaluate as stated: `[100,100] ↦ (stable, 0)`,
`[0,50] ↦ (increasing, 100)`, `[100,104] ↦ (stable, 4)`,
`[100,120] ↦ (increasing, 20)`, `[100,80] ↦ (decreasing, 20)`. -/
theorem calculateTrend_matches_spec :
    (∀ periods : List ℚ, calculateTrend periods = calculateTrendSpec periods) ∧
    calculateTrend [100, 100] = (Trend.stable, 0) ∧
    calculateTrend [0, 50] = (Trend.increasing, 100) ∧
    calculateTrend [100, 104] = (Trend.stable, 4) ∧
    calculateTrend [100, 120] = (Trend.increasing, 20) ∧
    calculateTrend [100, 80] = (Trend.decreasing, 20) := by
  refine ⟨?_,
    by norm_num [calculateTrend, round2, jsRound, jsAbs, List.headI, List.getLastD],
    by norm_num [calculateTrend, round2, jsRound, jsAbs, List.headI, List.getLastD],
    by norm_num [calculateTrend, round2, jsRound, jsAbs, List.headI, List.getLastD],
    by norm_num [calculateTrend, round2, jsRound, jsAbs, List.headI, List.getLastD],
    by norm_num [calculateTrend, round2, jsRound, jsAbs, List.headI, List.getLastD]⟩
  intro periods
  unfold calculateTrend calculateTrendSpec
  by_cases hlen : periods.length < 2
  · simp [hlen]
  · simp only [hlen, if_false, false_or]
    set first := periods.headI with hf
    set last := periods.getLastD 0 with hl
    by_cases h00 : first = 0 ∧ last = 0
    · simp [h00]
    · simp only [h00, if_false]
      by_cases hfz : first = 0
      · have hlz : last ≠ 0 := by
          intro hc
          exact h00 ⟨hfz, hc⟩
        simp [hfz, hlz]
      · have : ¬(first = 0 ∧ last ≠ 0) := by
          intro hc
          exact hfz hc.1
        simp [this, hfz]

/-! ## AggregationEngine: `generateEmployeeReport` / `generatePeriodReport`

Dates in this pipeline are the integer millisecond timestamps the code
compares via `Date#getTime` subtraction and `>=` / `<=`.  The income
collaborator is modelled by handing each employee its full persisted
history, most-recent-first, exactly the order produced by the repository
query `ORDER BY date DESC, created_at DESC`; `LIMIT $2` becomes
`List.take`. -/

/-- One row of the `income_entries` table as seen by the reporting code.
`date = none` models a row whose date is null/undefined (the filter in
`getEntriesInPeriod` drops such rows). -/
structure IncomeEntry where
  amount : ℚ
  date : Option ℤ
deriving DecidableEq, Repr

/-- An employee as returned by `EmployeeService.getEmployeesByManager`. -/
structure Employee where
  id : ℕ
  employee_name : List Char
deriving DecidableEq, Repr

/-- `String.prototype.includes` on lowered character lists (ASCII case
folding, which covers every pattern the code searches for). -/
def containsSub (s pat : List Char) : Bool :=
  match s with
  | [] => pat.isEmpty
  | _ :: tl => pat.isPrefixOf s || containsSub tl pat

/-- `IncomeService.getIncomeHistoryForEmployee` →
`IncomeRepository.findRecentByEmployeeId`: the most-recent-first history
truncated by the SQL `LIMIT`. -/
def getIncomeHistoryForEmployee (history : List IncomeEntry) (limit : ℕ) :
    List IncomeEntry :=
  history.take limit

/-- `ReportingService.getEntriesInPeriod`: fetch with the hard limit of
1000, then keep entries whose date lies in `[startDate, endDate]` when a
full window is supplied; with a partial or absent window return
everything fetched. -/
def getEntriesInPeriod (history : List IncomeEntry)
    (startDate endDate : Option ℤ) : List IncomeEntry :=
  let allEntries := getIncomeHistoryForEmployee history 1000
  match startDate, endDate with
  | some s, some e =>
      allEntries.filter (fun entry =>
        match entry.date with
        | none => false
        | some d => decide (s ≤ d) && decide (d ≤ e))
  | _, _ => allEntries

/-- `EmployeeReport` of `ReportingService`. -/
structure EmployeeReport where
  employee : Employee
  totalIncome : ℚ
  entryCount : ℕ
  averageDaily : ℚ
  entries : List IncomeEntry
deriving DecidableEq, Repr

/-- Milliseconds per day, the divisor `1000 * 60 * 60 * 24`. -/
def msPerDay : ℤ := 1000 * 60 * 60 * 24

/-- The loop body of `generateEmployeeReport` for one employee:
sum and count the window entries, compute
`daysDiff = Math.ceil((end - start) / msPerDay)` when both dates are
supplied (else the fixed 30), and set
`averageDaily = daysDiff > 0 ? totalIncome / daysDiff : 0`. -/
def buildEmployeeReport (employee : Employee) (history : List IncomeEntry)
    (startDate endDate : Option ℤ) : EmployeeReport :=
  let entries := getEntriesInPeriod history startDate endDate
  let totalIncome := entries.foldl (fun s entry => s + entry.amount) 0
  let entryCount := entries.length
  let daysDiff : ℤ :=
    match startDate, endDate with
    | some s, some e => jsCeil (((e - s : ℤ) : ℚ) / (msPerDay : ℚ))
    | _, _ => 30
  let averageDaily : ℚ := if 0 < daysDiff then totalIncome / (daysDiff : ℚ) else 0
  { employee := employee, totalIncome := totalIncome, entryCount := entryCount,
    averageDaily := averageDaily, entries := entries }

/-- The employee list after the optional case-insensitive substring name
filter (`employeeName ? employees.filter(...) : employees`; the empty
string is falsy in JS and also selects everyone). -/
def targetEmployeesOf (data : List (Employee × List IncomeEntry))
    (employeeName : Option (List Char)) : List (Employee × List IncomeEntry) :=
  match employeeName with
  | none => data
  | some nm =>
      if nm.isEmpty then data
      else data.filter (fun p =>
        containsSub (p.1.employee_name.map Char.toLower) (nm.map Char.toLower))

/-- The per-employee reports in employee enumeration order, before the
final sort (the `reports` array right before `reports.sort(...)`). -/
def employeeReportsUnsorted (data : List (Employee × List IncomeEntry))
    (employeeName : Option (List Char)) (startDate endDate : Option ℤ) :
    List EmployeeReport :=
  (targetEmployeesOf data employeeName).map
    (fun p => buildEmployeeReport p.1 p.2 startDate endDate)

/-- Insert into an already descending-sorted list, after every element of
greater or equal `totalIncome`.  This is the stable insertion realising
`reports.sort((a, b) => b.totalIncome - a.totalIncome)`: the ECMAScript
sort is stable and any stable sort consistent with that comparator
produces this list. -/
def insertReportDesc (r : EmployeeReport) :
    List EmployeeReport → List EmployeeReport
  | [] => [r]
  | x :: xs =>
      if x.totalIncome ≤ r.totalIncome then r :: x :: xs
      else x :: insertReportDesc r xs

/-- Stable descending-by-`totalIncome` sort (see `insertReportDesc`). -/
def sortByIncomeDesc : List EmployeeReport → List EmployeeReport
  | [] => []
  | x :: xs => insertReportDesc x (sortByIncomeDesc xs)

/-- `ReportingService.generateEmployeeReport`, with the collaborator reads
supplied as `data` (employees of the manager in enumeration order, each
with its persisted income history, most-recent-first). -/
def generateEmployeeReport (data : List (Employee × List IncomeEntry))
    (employeeName : Option (List Char)) (startDate endDate : Option ℤ) :
    List EmployeeReport :=
  sortByIncomeDesc (employeeReportsUnsorted data employeeName startDate endDate)

/-- `PeriodReport` of `ReportingService`.  The locale-rendered `period`
label and the `insights` strings are display-only and are not modelled
(the trend-insight selection logic is modelled separately for the trend
report). -/
structure PeriodReport where
  startDate : ℤ
  endDate : ℤ
  totalIncome : ℚ
  totalEntries : ℕ
  averageDaily : ℚ
  employeeReports : List EmployeeReport
  topPerformers : List EmployeeReport
deriving DecidableEq, Repr

/-- `ReportingService.generatePeriodReport`. -/
def generatePeriodReport (data : List (Employee × List IncomeEntry))
    (startDate endDate : ℤ) : PeriodReport :=
  let employeeReports := generateEmployeeReport data none (some startDate) (some endDate)
  let totalIncome := employeeReports.foldl (fun s r => s + r.totalIncome) 0
  let totalEntries := employeeReports.foldl (fun s r => s + r.entryCount) 0
  let daysDiff := jsCeil (((endDate - startDate : ℤ) : ℚ) / (msPerDay : ℚ))
  let averageDaily : ℚ := if 0 < daysDiff then totalIncome / (daysDiff : ℚ) else 0
  let topPerformers := employeeReports.take 5
  { startDate := startDate, endDate := endDate, totalIncome := totalIncome,
    totalEntries := totalEntries, averageDaily := averageDaily,
    employeeReports := employeeReports, topPerformers := topPerformers }

/-! ### Lemmas about the fold and the stable sort -/

lemma foldl_add_eq {M α : Type} [AddCommMonoid M] (f : α → M) (l : List α)
    (init : M) :
    l.foldl (fun s x => s + f x) init = init + (l.map f).sum := by
  induction l generalizing init with
  | nil => simp
  | cons x xs ih => simp [ih, add_assoc]

lemma mem_insertReportDesc {r y : EmployeeReport} {l : List EmployeeReport} :
    y ∈ insertReportDesc r l ↔ y = r ∨ y ∈ l := by
  induction l with
  | nil => simp [insertReportDesc]
  | cons x xs ih =>
    simp only [insertReportDesc]
    split
    · simp [List.mem_cons]
    · simp [List.mem_cons, ih]
      tauto

lemma mem_sortByIncomeDesc {y : EmployeeReport} {l : List EmployeeReport} :
    y ∈ sortByIncomeDesc l ↔ y ∈ l := by
  induction l with
  | nil => simp [sortByIncomeDesc]
  | cons x xs ih => simp [sortByIncomeDesc, mem_insertReportDesc, ih]

lemma pairwise_insertReportDesc {r : EmployeeReport} {l : List EmployeeReport}
    (h : l.Pairwise (fun a b => b.totalIncome ≤ a.totalIncome)) :
    (insertReportDesc r l).Pairwise (fun a b => b.totalIncome ≤ a.totalIncome) := by
  induction l with
  | nil => simp [insertReportDesc]
  | cons x xs ih =>
    rw [List.pairwise_cons] at h
    simp only [insertReportDesc]
    split
    · rename_i hc
      refine List.Pairwise.cons ?_ (List.Pairwise.cons h.1 h.2)
      intro y hy
      rcases List.mem_cons.mp hy with rfl | hy2
      · exact hc
      · exact le_trans (h.1 y hy2) hc
    · rename_i hc
      push_neg at hc
      refine List.Pairwise.cons ?_ (ih h.2)
      intro y hy
      rcases mem_insertReportDesc.mp hy with rfl | hy2
      · exact le_of_lt hc
      · exact h.1 y hy2

lemma pairwise_sortByIncomeDesc (l : List EmployeeReport) :
    (sortByIncomeDesc l).Pairwise (fun a b => b.totalIncome ≤ a.totalIncome) := by
  induction l with
  | nil => simp [sortByIncomeDesc]
  | cons x xs ih => exact pairwise_insertReportDesc ih

lemma filter_insertReportDesc (r : EmployeeReport) (l : List EmployeeReport)
    (v : ℚ) :
    (insertReportDesc r l).filter (fun x => decide (x.totalIncome = v)) =
      if r.totalIncome = v
      then r :: l.filter (fun x => decide (x.totalIncome = v))
      else l.filter (fun x => decide (x.totalIncome = v)) := by
  induction l with
  | nil =>
    by_cases hr : r.totalIncome = v <;> simp [insertReportDesc, hr]
  | cons x xs ih =>
    simp only [insertReportDesc]
    by_cases hc : x.totalIncome ≤ r.totalIncome
    · rw [if_pos hc]
      by_cases hr : r.totalIncome = v <;> simp [List.filter_cons, hr]
    · rw [if_neg hc]
      have hlt : r.totalIncome < x.totalIncome := lt_of_not_le hc
      by_cases hx : x.totalIncome = v
      · have hr : ¬ r.totalIncome = v := by
          intro hr
          exact absurd (hx.trans hr.symm) (ne_of_gt hlt)
        simp [List.filter_cons, hx, hr, ih]
      · by_cases hr : r.totalIncome = v <;>
          simp [List.filter_cons, hx, hr, ih]

lemma filter_sortByIncomeDesc (l : List EmployeeReport) (v : ℚ) :
    (sortByIncomeDesc l).filter (fun x => decide (x.totalIncome = v)) =
      l.filter (fun x => decide (x.totalIncome = v)) := by
  induction l with
  | nil => rfl
  | cons x xs ih =>
    rw [sortByIncomeDesc, filter_insertReportDesc, List.filter_cons]
    by_cases hx : x.totalIncome = v <;> simp [hx, ih]

/-! ### C4: period report invariants -/

/-- C4: every `PeriodReport` has `totalIncome` equal to the sum of its
employee reports' totals, its `employeeReports` sorted non-increasingly
by `totalIncome`, stably (for each income value the reports with that
value appear exactly as in the employee enumeration order), and
`topPerformers` is exactly the length-`min 5 _` prefix. -/
theorem generatePeriodReport_invariants
    (data : List (Employee × List IncomeEntry)) (startDate endDate : ℤ) :
    (generatePeriodReport data startDate endDate).totalIncome =
      ((generatePeriodReport data startDate endDate).employeeReports.map
        (fun r => r.totalIncome)).sum ∧
    (generatePeriodReport data startDate endDate).employeeReports.Pairwise
      (fun a b => b.totalIncome ≤ a.totalIncome) ∧
    (∀ v : ℚ,
      (generatePeriodReport data startDate endDate).employeeReports.filter
          (fun r => decide (r.totalIncome = v)) =
        (employeeReportsUnsorted data none (some startDate) (some endDate)).filter
          (fun r => decide (r.totalIncome = v))) ∧
    (generatePeriodReport data startDate endDate).topPerformers =
      (generatePeriodReport data startDate endDate).employeeReports.take 5 ∧
    (generatePeriodReport data startDate endDate).topPerformers.length =
      min 5 (generatePeriodReport data startDate endDate).employeeReports.length := by
  refine ⟨?_, ?_, ?_, rfl, ?_⟩
  · show (generateEmployeeReport data none (some startDate) (some endDate)).foldl
      (fun s r => s + r.totalIncome) 0 = _
    simpa using foldl_add_eq (fun r : EmployeeReport => r.totalIncome)
      (generateEmployeeReport data none (some startDate) (some endDate)) 0
  · exact pairwise_sortByIncomeDesc _
  · intro v
    exact filter_sortByIncomeDesc _ v
  · exact List.length_take 5
      (generatePeriodReport data startDate endDate).employeeReports

/-! ### C5: per-employee report count/sum invariant -/

/-- C5: every report in the output of `generateEmployeeReport` stores
exactly the window-filtered entries together with their count and the
sum of their amounts. -/
theorem employeeReport_count_and_sum
    (data : List (Employee × List IncomeEntry))
    (employeeName : Option (List Char)) (startDate endDate : Option ℤ)
    (r : EmployeeReport)
    (hr : r ∈ generateEmployeeReport data employeeName startDate endDate) :
    r.entryCount = r.entries.length ∧
    r.totalIncome = (r.entries.map (fun entry => entry.amount)).sum := by
  rw [generateEmployeeReport, mem_sortByIncomeDesc, employeeReportsUnsorted] at hr
  rcases List.mem_map.mp hr with ⟨p, _, rfl⟩
  refine ⟨rfl, ?_⟩
  simpa using foldl_add_eq (fun entry : IncomeEntry => entry.amount)
    (getEntriesInPeriod p.2 startDate endDate) 0

/-- Concrete data for the witnesses: one employee with two dated entries. -/
def sampleEmployee : Employee := ⟨1, ['a']⟩

def sampleData : List (Employee × List IncomeEntry) :=
  [(sampleEmployee, [⟨50, some 5⟩, ⟨20, some 3⟩])]

def sampleReport : EmployeeReport :=
  buildEmployeeReport sampleEmployee [⟨50, some 5⟩, ⟨20, some 3⟩] none none

lemma sampleReport_mem :
    sampleReport ∈ generateEmployeeReport sampleData none none none := by
  simp [generateEmployeeReport, employeeReportsUnsorted, targetEmployeesOf,
    sortByIncomeDesc, insertReportDesc, sampleData, sampleReport]

theorem employeeReport_count_and_sum_witness :
    sampleReport.entryCount = sampleReport.entries.length ∧
    sampleReport.totalIncome =
      (sampleReport.entries.map (fun entry => entry.amount)).sum :=
  employeeReport_count_and_sum sampleData none none none sampleReport
    sampleReport_mem

/-! ### C3: the daily-average divisor

The code computes `daysDiff = Math.ceil((end - start) / msPerDay)` and
then `averageDaily = daysDiff > 0 ? totalIncome / daysDiff : 0`.  There
is no `max(1, ·)` clamp: a window with `endDate ≤ startDate` yields
`averageDaily = 0`, not `totalIncome / 1`. -/

def cexEmployee : Employee := ⟨2, ['b']⟩

def cexEntry : IncomeEntry := ⟨100, some 0⟩

def cexReport : EmployeeReport :=
  buildEmployeeReport cexEmployee [cexEntry] (some 0) (some 0)

/-- C3 counterexample: for the window `startDate = endDate = 0` with one
in-window entry of amount 100, the produced report has
`averageDaily = 0`, while the claimed formula
`totalIncome / max(1, ceil((end - start) / 1 day))` evaluates to 100. -/
theorem averageDaily_claim_counterexample :
    cexReport.totalIncome = 100 ∧
    cexReport.averageDaily = 0 ∧
    cexReport.totalIncome /
      ((max 1 (jsCeil ((((0 : ℤ) - 0 : ℤ) : ℚ) / (msPerDay : ℚ))) : ℤ) : ℚ) = 100 ∧
    cexReport.averageDaily ≠
      cexReport.totalIncome /
        ((max 1 (jsCeil ((((0 : ℤ) - 0 : ℤ) : ℚ) / (msPerDay : ℚ))) : ℤ) : ℚ) := by
  norm_num [cexReport, buildEmployeeReport, getEntriesInPeriod,
    getIncomeHistoryForEmployee, cexEntry, jsCeil, msPerDay, List.filter]

/-- C3 (amended): with a full window, `averageDaily` is
`totalIncome / ceil((end - start) / 1 day)` when that ceiling is
positive and `0` otherwise (there is no clamping to a minimum of one
day); with no window, `averageDaily = totalIncome / 30`. -/
theorem averageDaily_amended
    (data : List (Employee × List IncomeEntry))
    (employeeName : Option (List Char)) :
    (∀ (s e : ℤ) (r : EmployeeReport),
      r ∈ generateEmployeeReport data employeeName (some s) (some e) →
      r.averageDaily =
        (if 0 < jsCeil (((e - s : ℤ) : ℚ) / (msPerDay : ℚ))
         then r.totalIncome / ((jsCeil (((e - s : ℤ) : ℚ) / (msPerDay : ℚ)) : ℤ) : ℚ)
         else 0)) ∧
    (∀ r : EmployeeReport,
      r ∈ generateEmployeeReport data employeeName none none →
      r.averageDaily = r.totalIncome / 30) := by
  constructor
  · intro s e r hr
    rw [generateEmployeeReport, mem_sortByIncomeDesc, employeeReportsUnsorted] at hr
    rcases List.mem_map.mp hr with ⟨p, _, rfl⟩
    rfl
  · intro r hr
    rw [generateEmployeeReport, mem_sortByIncomeDesc, employeeReportsUnsorted] at hr
    rcases List.mem_map.mp hr with ⟨p, _, rfl⟩
    simp only [buildEmployeeReport]
    norm_num

lemma cexReport_mem :
    cexReport ∈ generateEmployeeReport [(cexEmployee, [cexEntry])] none
      (some 0) (some 0) := by
  simp [generateEmployeeReport, employeeReportsUnsorted, targetEmployeesOf,
    sortByIncomeDesc, insertReportDesc, cexReport]

theorem averageDaily_amended_witness :
    cexReport.averageDaily =
      (if 0 < jsCeil ((((0 : ℤ) - 0 : ℤ) : ℚ) / (msPerDay : ℚ))
       then cexReport.totalIncome /
         ((jsCeil ((((0 : ℤ) - 0 : ℤ) : ℚ) / (msPerDay : ℚ)) : ℤ) : ℚ)
       else 0) ∧
    sampleReport.averageDaily = sampleReport.totalIncome / 30 :=
  ⟨(averageDaily_amended [(cexEmployee, [cexEntry])] none).1 0 0 cexReport
      cexReport_mem,
    (averageDaily_amended sampleData none).2 sampleReport sampleReport_mem⟩

/-! ### C10: the hard fetch limit of 1000 entries per employee -/

lemma buildEmployeeReport_take (employee : Employee)
    (history : List IncomeEntry) (startDate endDate : Option ℤ) :
    buildEmployeeReport employee (history.take 1000) startDate endDate =
      buildEmployeeReport employee history startDate endDate := by
  unfold buildEmployeeReport getEntriesInPeriod getIncomeHistoryForEmployee
  rw [List.take_take]
  norm_num

lemma employeeReportsUnsorted_take (data : List (Employee × List IncomeEntry))
    (employeeName : Option (List Char)) (startDate endDate : Option ℤ) :
    employeeReportsUnsorted (data.map (fun p => (p.1, p.2.take 1000)))
        employeeName startDate endDate =
      employeeReportsUnsorted data employeeName startDate endDate := by
  unfold employeeReportsUnsorted targetEmployeesOf
  have hmap : ∀ l : List (Employee × List IncomeEntry),
      (l.map (fun p => (p.1, p.2.take 1000))).map
          (fun p => buildEmployeeReport p.1 p.2 startDate endDate) =
        l.map (fun p => buildEmployeeReport p.1 p.2 startDate endDate) := by
    intro l
    rw [List.map_map]
    exact List.map_congr_left (fun p _ => buildEmployeeReport_take p.1 p.2 _ _)
  cases employeeName with
  | none => exact hmap data
  | some nm =>
    by_cases hnm : nm.isEmpty
    · simp only [hnm, if_true]
      exact hmap data
    · simp only [hnm, if_false]
      rw [List.filter_map]
      exact hmap _

lemma getEntriesInPeriod_length_le (history : List IncomeEntry)
    (startDate endDate : Option ℤ) :
    (getEntriesInPeriod history startDate endDate).length ≤ 1000 := by
  unfold getEntriesInPeriod getIncomeHistoryForEmployee
  split
  · exact le_trans (List.length_filter_le _ _) (List.length_take_le _ _)
  · exact List.length_take_le _ _

/-- C10: the aggregation factors through the most recent 1000 entries of
each employee's history (entries beyond that limit never change any
report), and every report aggregates at most 1000 entries. -/
theorem entries_limit_1000 :
    (∀ (data : List (Employee × List IncomeEntry))
        (employeeName : Option (List Char)) (startDate endDate : Option ℤ),
      generateEmployeeReport data employeeName startDate endDate =
        generateEmployeeReport (data.map (fun p => (p.1, p.2.take 1000)))
          employeeName startDate endDate) ∧
    (∀ (data : List (Employee × List IncomeEntry))
        (employeeName : Option (List Char)) (startDate endDate : Option ℤ)
        (r : EmployeeReport),
      r ∈ generateEmployeeReport data employeeName startDate endDate →
      r.entryCount ≤ 1000) := by
  constructor
  · intro data employeeName startDate endDate
    unfold generateEmployeeReport
    rw [employeeReportsUnsorted_take]
  · intro data employeeName startDate endDate r hr
    rw [generateEmployeeReport, mem_sortByIncomeDesc, employeeReportsUnsorted] at hr
    rcases List.mem_map.mp hr with ⟨p, _, rfl⟩
    exact getEntriesInPeriod_length_le p.2 startDate endDate

theorem entries_limit_1000_witness : sampleReport.entryCount ≤ 1000 :=
  entries_limit_1000.2 sampleData none none none sampleReport sampleReport_mem

/-! ## InsightGenerator: `generateTrendInsights` (C9)

`generateTrendInsights` renders strings; the claim concerns which trend
point is selected as best and worst month, so the selection logic is
modelled and the locale formatting is left out. -/

/-- One element of the `periods` array handed to `generateTrendInsights`. -/
structure TrendPoint where
  period : String
  totalIncome : ℚ
  entryCount : ℕ
  averageDaily : ℚ
deriving DecidableEq, Repr

/-- `periods.reduce((max, p) => p.totalIncome > max.totalIncome ? p : max)`:
JavaScript `reduce` without an initial value on the non-empty array
`p :: ps`. -/
def bestMonthRed (p : TrendPoint) (ps : List TrendPoint) : TrendPoint :=
  ps.foldl (fun mx q => if q.totalIncome > mx.totalIncome then q else mx) p

/-- `periods.reduce((min, p) => p.totalIncome < min.totalIncome ? p : min)`. -/
def worstMonthRed (p : TrendPoint) (ps : List TrendPoint) : TrendPoint :=
  ps.foldl (fun mn q => if q.totalIncome < mn.totalIncome then q else mn) p

/-- The data selected by `generateTrendInsights` from a non-empty,
chronologically ordered `periods` list: mean monthly income, best month
and worst month. -/
structure TrendInsights where
  averageMonthly : ℚ
  bestMonth : TrendPoint
  worstMonth : TrendPoint
deriving Repr

/-- `ReportingService.generateTrendInsights`, restricted to the selected
data (the surrounding strings are rendering only). -/
def generateTrendInsights (p : TrendPoint) (ps : List TrendPoint) :
    TrendInsights :=
  let totalIncome := (p :: ps).foldl (fun s q => s + q.totalIncome) 0
  { averageMonthly := totalIncome / ((p :: ps).length : ℚ)
    bestMonth := bestMonthRed p ps
    worstMonth := worstMonthRed p ps }

/-- Modelled from the spec sentence of C9: the minimum with ties broken by
the first occurrence when scanning chronologically backward, i.e. the
first-wins min reduction over the reversed sequence. -/
def firstMinScanningBackward (p : TrendPoint) (ps : List TrendPoint) :
    TrendPoint :=
  match (p :: ps).reverse with
  | [] => p
  | q :: qs => qs.foldl (fun mn r => if r.totalIncome < mn.totalIncome then r else mn) q

def tpA : TrendPoint := ⟨"2024-01", 5, 0, 0⟩

def tpB : TrendPoint := ⟨"2024-02", 3, 0, 0⟩

def tpC : TrendPoint := ⟨"2024-03", 3, 0, 0⟩

/-- C9 counterexample: on the points (5, 3, 3) the code's reduction keeps
the chronologically first minimum (the second point), while the claim's
backward tie-break names the third point. -/
theorem worstMonth_backward_tie_counterexample :
    (generateTrendInsights tpA [tpB, tpC]).worstMonth = tpB ∧
    firstMinScanningBackward tpA [tpB, tpC] = tpC ∧
    tpB ≠ tpC := by
  refine ⟨?_, ?_, ?_⟩
  · norm_num [generateTrendInsights, worstMonthRed, tpA, tpB, tpC]
  · norm_num [firstMinScanningBackward, tpA, tpB, tpC]
  · intro h
    exact absurd (congrArg TrendPoint.period h) (by decide)

lemma bestMonthRed_decomp (p : TrendPoint) (ps : List TrendPoint) :
    ∃ l₁ l₂, p :: ps = l₁ ++ bestMonthRed p ps :: l₂ ∧
      (∀ q ∈ l₁, q.totalIncome < (bestMonthRed p ps).totalIncome) ∧
      (∀ q ∈ l₂, q.totalIncome ≤ (bestMonthRed p ps).totalIncome) := by
  induction ps generalizing p with
  | nil => exact ⟨[], [], rfl, by simp, by simp⟩
  | cons x xs ih =>
    have hstep : bestMonthRed p (x :: xs) =
        bestMonthRed (if x.totalIncome > p.totalIncome then x else p) xs := rfl
    by_cases hc : x.totalIncome > p.totalIncome
    · rw [hstep, if_pos hc]
      rcases ih x with ⟨l₁, l₂, heq, h₁, h₂⟩
      have hxle : x.totalIncome ≤ (bestMonthRed x xs).totalIncome := by
        cases l₁ with
        | nil =>
          rw [List.nil_append] at heq
          injection heq with h1 _
          exact le_of_eq (congrArg TrendPoint.totalIncome h1)
        | cons y l₁t =>
          rw [List.cons_append] at heq
          injection heq with h1 _
          exact le_of_lt (h₁ x (h1 ▸ List.mem_cons_self y l₁t))
      refine ⟨p :: l₁, l₂, by rw [List.cons_append, ← heq], ?_, h₂⟩
      intro q hq
      rcases List.mem_cons.mp hq with rfl | hq2
      · exact lt_of_lt_of_le hc hxle
      · exact h₁ q hq2
    · rw [hstep, if_neg hc]
      push_neg at hc
      rcases ih p with ⟨l₁, l₂, heq, h₁, h₂⟩
      cases l₁ with
      | nil =>
        rw [List.nil_append] at heq
        injection heq with h1 h2
        refine ⟨[], x :: xs, by rw [List.nil_append, ← h1], by simp, ?_⟩
        intro q hq
        rcases List.mem_cons.mp hq with rfl | hq2
        · exact hc.trans (le_of_eq (congrArg TrendPoint.totalIncome h1))
        · exact h₂ q (h2 ▸ hq2)
      | cons y l₁t =>
        rw [List.cons_append] at heq
        injection heq with h1 h2
        subst h1
        have hpb : p.totalIncome < (bestMonthRed p xs).totalIncome :=
          h₁ p (List.mem_cons_self p l₁t)
        refine ⟨p :: x :: l₁t, l₂, by rw [List.cons_append, List.cons_append, ← h2], ?_, h₂⟩
        intro q hq
        rcases List.mem_cons.mp hq with rfl | hq2
        · exact hpb
        · rcases List.mem_cons.mp hq2 with rfl | hq3
          · exact lt_of_le_of_lt hc hpb
          · exact h₁ q (List.mem_cons_of_mem p hq3)

lemma worstMonthRed_decomp (p : TrendPoint) (ps : List TrendPoint) :
    ∃ l₁ l₂, p :: ps = l₁ ++ worstMonthRed p ps :: l₂ ∧
      (∀ q ∈ l₁, (worstMonthRed p ps).totalIncome < q.totalIncome) ∧
      (∀ q ∈ l₂, (worstMonthRed p ps).totalIncome ≤ q.totalIncome) := by
  induction ps generalizing p with
  | nil => exact ⟨[], [], rfl, by simp, by simp⟩
  | cons x xs ih =>
    have hstep : worstMonthRed p (x :: xs) =
        worstMonthRed (if x.totalIncome < p.totalIncome then x else p) xs := rfl
    by_cases hc : x.totalIncome < p.totalIncome
    · rw [hstep, if_pos hc]
      rcases ih x with ⟨l₁, l₂, heq, h₁, h₂⟩
      have hxle : (worstMonthRed x xs).totalIncome ≤ x.totalIncome := by
        cases l₁ with
        | nil =>
          rw [List.nil_append] at heq
          injection heq with h1 _
          exact le_of_eq (congrArg TrendPoint.totalIncome h1).symm
        | cons y l₁t =>
          rw [List.cons_append] at heq
          injection heq with h1 _
          exact le_of_lt (h₁ x (h1 ▸ List.mem_cons_self y l₁t))
      refine ⟨p :: l₁, l₂, by rw [List.cons_append, ← heq], ?_, h₂⟩
      intro q hq
      rcases List.mem_cons.mp hq with rfl | hq2
      · exact lt_of_le_of_lt hxle hc
      · exact h₁ q hq2
    · rw [hstep, if_neg hc]
      push_neg at hc
      rcases ih p with ⟨l₁, l₂, heq, h₁, h₂⟩
      cases l₁ with
      | nil =>
        rw [List.nil_append] at heq
        injection heq with h1 h2
        refine ⟨[], x :: xs, by rw [List.nil_append, ← h1], by simp, ?_⟩
        intro q hq
        rcases List.mem_cons.mp hq with rfl | hq2
        · exact le_trans (le_of_eq (congrArg TrendPoint.totalIncome h1).symm) hc
        · exact h₂ q (h2 ▸ hq2)
      | cons y l₁t =>
        rw [List.cons_append] at heq
        injection heq with h1 h2
        subst h1
        have hpb : (worstMonthRed p xs).totalIncome < p.totalIncome :=
          h₁ p (List.mem_cons_self p l₁t)
        refine ⟨p :: x :: l₁t, l₂, by rw [List.cons_append, List.cons_append, ← h2], ?_, h₂⟩
        intro q hq
        rcases List.mem_cons.mp hq with rfl | hq2
        · exact hpb
        · rcases List.mem_cons.mp hq2 with rfl | hq3
          · exact lt_of_lt_of_le hpb hc
          · exact h₁ q (List.mem_cons_of_mem p hq3)

/-- C9 (amended): for every non-empty chronologically ordered sequence of
trend points, the reported best month is the maximum with ties broken by
the first occurrence scanning forward, and the reported worst month is
the minimum with ties broken by the first occurrence scanning forward as
well (both reductions are first-wins-on-tie). -/
theorem trendInsights_best_worst_first_wins (p : TrendPoint)
    (ps : List TrendPoint) :
    (∃ l₁ l₂, p :: ps = l₁ ++ (generateTrendInsights p ps).bestMonth :: l₂ ∧
      (∀ q ∈ l₁, q.totalIncome < (generateTrendInsights p ps).bestMonth.totalIncome) ∧
      (∀ q ∈ l₂, q.totalIncome ≤ (generateTrendInsights p ps).bestMonth.totalIncome)) ∧
    (∃ l₁ l₂, p :: ps = l₁ ++ (generateTrendInsights p ps).worstMonth :: l₂ ∧
      (∀ q ∈ l₁, (generateTrendInsights p ps).worstMonth.totalIncome < q.totalIncome) ∧
      (∀ q ∈ l₂, (generateTrendInsights p ps).worstMonth.totalIncome ≤ q.totalIncome)) :=
  ⟨bestMonthRed_decomp p ps, worstMonthRed_decomp p ps⟩

/-! ## ReportScheduler: `AutomatedReportingService`

The current time reaches the fire predicates through
`new Date(now.toLocaleString('en-US', { timeZone: 'Asia/Jakarta' }))`:
the instant is shifted to the fixed UTC+7 Jakarta wall clock (no DST)
and its weekday / day-of-month / month / hour fields are read.  An
instant is its millisecond UTC timestamp; the civil fields are obtained
with the standard proleptic-Gregorian conversion used by JS engines. -/

/-- A point in time: milliseconds since the Unix epoch (UTC). -/
structure Instant where
  ms : ℤ
deriving DecidableEq, Repr

/-- The fixed Asia/Jakarta offset: UTC+7, in milliseconds. -/
def jakartaMs (t : Instant) : ℤ := t.ms + 7 * 60 * 60 * 1000

/-- Day number (days since 1970-01-01) of a local millisecond clock. -/
def localDayNumber (lm : ℤ) : ℤ := lm.ediv 86400000

/-- Proleptic Gregorian (year, month 1–12, day 1–31) of a day number,
the field extraction performed by JS `Date` (Hinnant's civil-from-days
algorithm, all divisions flooring). -/
def civilFromDays (z0 : ℤ) : ℤ × ℤ × ℤ :=
  let z := z0 + 719468
  let era := z.ediv 146097
  let doe := z - era * 146097
  let yoe := (doe - doe.ediv 1460 + doe.ediv 36524 - doe.ediv 146096).ediv 365
  let y := yoe + era * 400
  let doy := doe - (365 * yoe + yoe.ediv 4 - yoe.ediv 100)
  let mp := (5 * doy + 2).ediv 153
  let d := doy - (153 * mp + 2).ediv 5 + 1
  let m := mp + (if mp < 10 then 3 else -9)
  (y + (if m ≤ 2 then 1 else 0), m, d)

/-- `jakartaTime.getDay()`: weekday (0 = Sunday) of the Jakarta wall
clock; 1970-01-01 was a Thursday (4). -/
def jsGetDay (t : Instant) : ℤ := (localDayNumber (jakartaMs t) + 4).emod 7

/-- `jakartaTime.getHours()`: hour of day on the Jakarta wall clock. -/
def jsGetHours (t : Instant) : ℤ := ((jakartaMs t).ediv 3600000).emod 24

/-- `jakartaTime.getDate()`: day of month on the Jakarta wall clock. -/
def jsGetDate (t : Instant) : ℤ :=
  (civilFromDays (localDayNumber (jakartaMs t))).2.2

/-- `jakartaTime.getMonth()`: zero-based month (0 = January) on the
Jakarta wall clock. -/
def jsGetMonth (t : Instant) : ℤ :=
  (civilFromDays (localDayNumber (jakartaMs t))).2.1 - 1

/-- The four schedule kinds keyed in the schedules map. -/
inductive ScheduleType where
  | test
  | weekly
  | monthly
  | yearly
deriving DecidableEq, Repr

/-- `AutomatedReportingService.shouldSendReport`; `devMode` models
`process.env.NODE_ENV === 'development'`. -/
def shouldSendReport (devMode : Bool) (type : ScheduleType) (t : Instant) :
    Bool :=
  match type with
  | ScheduleType.test => devMode
  | ScheduleType.weekly =>
      decide (jsGetDay t = 5) && decide (jsGetHours t = 17)
  | ScheduleType.monthly =>
      decide (jsGetDate t = 1) && decide (jsGetHours t = 9)
  | ScheduleType.yearly =>
      decide (jsGetMonth t = 0) && decide (jsGetDate t = 1) &&
        decide (jsGetHours t = 10)

/-- C7: after conversion to the fixed Asia/Jakarta (UTC+7) wall clock,
the weekly predicate holds iff the local weekday is Friday (5) and the
local hour is exactly 17; the monthly predicate iff the local
day-of-month is 1 and the hour is exactly 9; the yearly predicate iff
the local month is January (0), the day is 1 and the hour is exactly
10; moreover 2024-01-05 10:00 UTC (a Friday, 17:00 in Jakarta) fires
weekly while one hour later does not. -/
theorem shouldSendReport_fire_conditions :
    (∀ (devMode : Bool) (t : Instant),
      (shouldSendReport devMode ScheduleType.weekly t = true ↔
        jsGetDay t = 5 ∧ jsGetHours t = 17) ∧
      (shouldSendReport devMode ScheduleType.monthly t = true ↔
        jsGetDate t = 1 ∧ jsGetHours t = 9) ∧
      (shouldSendReport devMode ScheduleType.yearly t = true ↔
        jsGetMonth t = 0 ∧ jsGetDate t = 1 ∧ jsGetHours t = 10)) ∧
    shouldSendReport false ScheduleType.weekly ⟨1704448800000⟩ = true ∧
    shouldSendReport false ScheduleType.weekly ⟨1704448800000 + 3600000⟩ = false ∧
    shouldSendReport false ScheduleType.monthly ⟨1706752800000⟩ = true ∧
    shouldSendReport false ScheduleType.yearly ⟨1704078000000⟩ = true := by
  refine ⟨?_, by decide, by decide, by decide, by decide⟩
  intro devMode t
  refine ⟨?_, ?_, ?_⟩ <;> simp [shouldSendReport, and_assoc]

/-- One entry of the schedules map (the display `description` string is
not modelled). -/
structure ReportSchedule where
  type : ScheduleType
  interval : ℕ
  enabled : Bool
deriving DecidableEq, Repr

/-- The scheduler's mutable state: the schedules map and the set of keys
holding an active `setInterval` timer. -/
structure SchedulerState where
  schedules : List (ScheduleType × ReportSchedule)
  intervals : List ScheduleType
deriving DecidableEq, Repr

/-- `initializeSchedules`: test every 3 minutes (enabled only in dev),
weekly/monthly/yearly checked hourly and enabled by default. -/
def initSchedules (devMode : Bool) : List (ScheduleType × ReportSchedule) :=
  [(ScheduleType.test, ⟨ScheduleType.test, 3 * 60 * 1000, devMode⟩),
   (ScheduleType.weekly, ⟨ScheduleType.weekly, 60 * 60 * 1000, true⟩),
   (ScheduleType.monthly, ⟨ScheduleType.monthly, 60 * 60 * 1000, true⟩),
   (ScheduleType.yearly, ⟨ScheduleType.yearly, 60 * 60 * 1000, true⟩)]

/-- The state right after construction: schedules registered, no timer
started yet. -/
def initialState (devMode : Bool) : SchedulerState :=
  { schedules := initSchedules devMode, intervals := [] }

/-- `startSchedule`: clear any existing interval for the key, then
register a fresh one. -/
def startSchedule (st : SchedulerState) (key : ScheduleType) : SchedulerState :=
  { st with intervals := st.intervals.erase key ++ [key] }

/-- `startScheduledReports`: start a timer for every schedule whose
`enabled` flag is set at that moment. -/
def startScheduledReports (st : SchedulerState) : SchedulerState :=
  st.schedules.foldl
    (fun acc p => if p.2.enabled then startSchedule acc p.1 else acc) st

/-- `updateSchedule`: flip the `enabled` flag of the named schedule (and
nothing else — in particular no timer is started or stopped). -/
def updateSchedule (st : SchedulerState) (type : ScheduleType)
    (enabled : Bool) : SchedulerState :=
  { st with
    schedules := st.schedules.map
      (fun p => if p.1 = type then (p.1, { p.2 with enabled := enabled }) else p) }

/-- The `enabled` flag recorded for a schedule kind. -/
def getEnabled (st : SchedulerState) (type : ScheduleType) : Option Bool :=
  (st.schedules.find? (fun p => p.1 == type)).map (fun p => p.2.enabled)

/-- Whether the `setInterval` callback registered by `startSchedule`
dispatches a report when it runs at instant `t`: the callback runs iff
the key holds an active timer, and its body checks only
`shouldSendReport(schedule.type)` — it never re-reads the schedule's
`enabled` flag. -/
def tickGenerates (st : SchedulerState) (devMode : Bool) (key : ScheduleType)
    (t : Instant) : Bool :=
  decide (key ∈ st.intervals) && shouldSendReport devMode key t

/-- Friday 2024-01-05 10:00:00 UTC, i.e. Friday 17:00 Asia/Jakarta. -/
def fridayFivePmJakarta : Instant := ⟨1704448800000⟩

/-- C1 (code bug): start the scheduler in production mode, then disable
the weekly schedule with `updateSchedule('weekly', false)`.  The flag is
recorded as disabled, yet the next hourly tick falling on Friday 17:00
Jakarta time still dispatches the weekly report: the tick callback never
consults the `enabled` flag, so disabling a started schedule has no
effect until a full restart. -/
theorem updateSchedule_disable_ignored_by_tick :
    getEnabled
        (updateSchedule (startScheduledReports (initialState false))
          ScheduleType.weekly false)
        ScheduleType.weekly = some false ∧
    tickGenerates
        (updateSchedule (startScheduledReports (initialState false))
          ScheduleType.weekly false)
        false ScheduleType.weekly fridayFivePmJakarta = true := by
  constructor
  · decide
  · decide

/-- A registered business as enumerated by `getAllManagers`. -/
structure Manager where
  id : ℕ
  telegram_user_id : String
  business_name : String
deriving DecidableEq, Repr

/-- Whether an `Except` result is a success. -/
def exceptOk {ε α : Type} : Except ε α → Bool
  | Except.ok _ => true
  | Except.error _ => false

/-- `executeScheduledReport`: iterate over all managers; generating and
sending one manager's report (`deliver`) sits in its own `try`/`catch`,
so a failure is logged and the loop continues.  Returns the managers
whose report was delivered. -/
def executeScheduledReport (managers : List Manager)
    (deliver : Manager → Except String Unit) : List Manager :=
  managers.foldl
    (fun sent m =>
      match deliver m with
      | Except.ok _ => sent ++ [m]
      | Except.error _ => sent) []

/-- One invocation of the `setInterval` callback: fire condition checked,
then the guarded dispatch.  Both the callback's own `try`/`catch` and
the per-recipient one leave no error outcome, and the scheduler state is
untouched, so later ticks are unaffected. -/
def tickOnce (st : SchedulerState) (devMode : Bool) (key : ScheduleType)
    (t : Instant) (managers : List Manager)
    (deliver : Manager → Except String Unit) :
    SchedulerState × List Manager :=
  if tickGenerates st devMode key t
  then (st, executeScheduledReport managers deliver)
  else (st, [])

lemma executeScheduledReport_go (deliver : Manager → Except String Unit)
    (managers : List Manager) (acc : List Manager) :
    managers.foldl
        (fun sent m =>
          match deliver m with
          | Except.ok _ => sent ++ [m]
          | Except.error _ => sent) acc =
      acc ++ managers.filter (fun m => exceptOk (deliver m)) := by
  induction managers generalizing acc with
  | nil => simp
  | cons m ms ih =>
    simp only [List.foldl_cons, List.filter_cons]
    cases hm : deliver m with
    | ok u => simp [hm, exceptOk, ih]
    | error s => simp [hm, exceptOk, ih]

/-- C8: during one scheduled dispatch the delivered recipients are
exactly those whose own generation/delivery succeeds — a failure for one
business never prevents the remaining businesses from being processed —
and a tick leaves the scheduler state unchanged whatever the delivery
outcomes, so the tick loop keeps ticking. -/
theorem executeScheduledReport_isolated_failures
    (managers : List Manager) (deliver : Manager → Except String Unit) :
    executeScheduledReport managers deliver =
      managers.filter (fun m => exceptOk (deliver m)) ∧
    (∀ (st : SchedulerState) (devMode : Bool) (key : ScheduleType)
        (t : Instant),
      (tickOnce st devMode key t managers deliver).1 = st) := by
  constructor
  · simpa using executeScheduledReport_go deliver managers []
  · intro st devMode key t
    unfold tickOnce
    split <;> rfl

/-! ## TimeFrameParser: `ReportingService.parseTimeFrame` (C6)

`parseTimeFrame` manipulates dates only through `new Date(y, m, d)`
construction and `setDate`, whose observable behaviour is civil calendar
arithmetic: out-of-range months and days roll over across month and year
boundaries with correct month lengths and leap years.  Dates are
therefore modelled as civil triples with that normalisation. -/

/-- A JS `Date`'s civil fields: year, zero-based month (0 = January),
one-based day of month. -/
structure JSDate where
  year : ℤ
  month : ℤ
  day : ℤ
deriving DecidableEq, Repr

/-- Gregorian leap year. -/
def isLeap (y : ℤ) : Bool :=
  ((y % 4) == 0 && (y % 100) != 0) || (y % 400) == 0

/-- Length of zero-based month `m` of year `y` (any `m` outside 0–11 is
only ever consumed after normalisation; the catch-all returns 31). -/
def daysInMonth (y m : ℤ) : ℤ :=
  if m = 1 then (if isLeap y then 29 else 28)
  else if m = 3 ∨ m = 5 ∨ m = 8 ∨ m = 10 then 30
  else 31

lemma daysInMonth_bounds (y m : ℤ) :
    28 ≤ daysInMonth y m ∧ daysInMonth y m ≤ 31 := by
  unfold daysInMonth
  split_ifs <;> norm_num

/-- Roll an out-of-range day of month across month boundaries (month
assumed already normalised to 0–11; day may be any integer, as produced
by `setDate` / the `new Date(y, m, 0)` idiom). -/
def normDay (y m d : ℤ) : JSDate :=
  if _hd : d ≤ 0 then
    normDay (y + ((m - 1) / 12)) (((m - 1) % 12))
      (d + daysInMonth (y + ((m - 1) / 12)) (((m - 1) % 12)))
  else if _hd2 : daysInMonth y m < d then
    normDay (y + ((m + 1) / 12)) (((m + 1) % 12)) (d - daysInMonth y m)
  else ⟨y, m, d⟩
termination_by (if d ≤ 0 then 32 - d else d).toNat
decreasing_by
  · have hb := daysInMonth_bounds (y + ((m - 1) / 12)) (((m - 1) % 12))
    split_ifs <;> omega
  · have hb := daysInMonth_bounds y m
    split_ifs <;> omega

/-- `new Date(y, m, d)` with zero-based month: normalise the month into
0–11 (rolling the year), then the day. -/
def mkDate (y m d : ℤ) : JSDate :=
  normDay (y + (m / 12)) ((m % 12)) d

/-- The readings `parseTimeFrame` takes from `new Date()`: the civil
fields of the current local date and its `getDay()` weekday
(0 = Sunday). -/
structure Now where
  date : JSDate
  weekday : ℤ
deriving DecidableEq, Repr

/-- The `{startDate, endDate, period}` object `parseTimeFrame` returns. -/
structure TimeFrame where
  startDate : JSDate
  endDate : JSDate
  period : String
deriving DecidableEq, Repr

/-- The six textual patterns, lowered (the query is lowercased first). -/
def patThisWeek : List Char := "this week".toList

def patLastWeek : List Char := "last week".toList

def patThisMonth : List Char := "this month".toList

def patLastMonth : List Char := "last month".toList

def patWeek : List Char := "week".toList

def patAgo : List Char := "ago".toList

def patLast : List Char := "last".toList

def patMonth : List Char := "month".toList

/-- Numeric value of a digit run (`parseInt` on the captured group). -/
def digitsVal (ds : List Char) : ℕ :=
  ds.foldl (fun a c => a * 10 + (c.toNat - 48)) 0

/-- Match `/(\d+)\s*weeks?\s*ago/` anchored at the head of `s`: a
maximal non-empty digit run (no shorter run can succeed, since a digit
can neither open `\s*` nor be `w`), optional whitespace, `week`, an
optional `s` (whose consumption can never turn a match into a failure),
optional whitespace, `ago`.  Whitespace is ASCII whitespace, which
covers every input the patterns distinguish. -/
def weeksAgoAt (s : List Char) : Option ℕ :=
  let ds := s.takeWhile Char.isDigit
  if ds.isEmpty then none
  else
    let r1 := (s.drop ds.length).dropWhile Char.isWhitespace
    if patWeek.isPrefixOf r1 then
      let r2 := r1.drop 4
      let r3 := if r2.head? = some 's' then r2.drop 1 else r2
      let r4 := r3.dropWhile Char.isWhitespace
      if patAgo.isPrefixOf r4 then some (digitsVal ds) else none
    else none

/-- Leftmost match of `/(\d+)\s*weeks?\s*ago/` over the whole string. -/
def findWeeksAgo : List Char → Option ℕ
  | [] => none
  | c :: rest =>
    match weeksAgoAt (c :: rest) with
    | some n => some n
    | none => findWeeksAgo rest

/-- Match `/last\s*(\d+)\s*months?/` anchored at the head of `s`. -/
def lastMonthsAt (s : List Char) : Option ℕ :=
  if patLast.isPrefixOf s then
    let r1 := (s.drop 4).dropWhile Char.isWhitespace
    let ds := r1.takeWhile Char.isDigit
    if ds.isEmpty then none
    else
      let r2 := (r1.drop ds.length).dropWhile Char.isWhitespace
      if patMonth.isPrefixOf r2 then some (digitsVal ds) else none
  else none

/-- Leftmost match of `/last\s*(\d+)\s*months?/`. -/
def findLastMonths : List Char → Option ℕ
  | [] => none
  | c :: rest =>
    match lastMonthsAt (c :: rest) with
    | some n => some n
    | none => findLastMonths rest

/-- `${weeksAgo} Week${weeksAgo > 1 ? 's' : ''} Ago`. -/
def weeksAgoLabel (n : ℕ) : String :=
  toString n ++ " Week" ++ (if 1 < n then "s" else "") ++ " Ago"

/-- `Last ${monthsBack} Month${monthsBack > 1 ? 's' : ''}`. -/
def lastMonthsLabel (n : ℕ) : String :=
  "Last " ++ toString n ++ " Month" ++ (if 1 < n then "s" else "")

/-- A Sunday-anchored 7-day window: `startOfWeek` is today's date shifted
back by `back` days via `setDate(getDate() - back)`, `endOfWeek` is its
`setDate(getDate() + 6)`. -/
def weekFrameFrom (now : Now) (back : ℤ) (label : String) : TimeFrame :=
  let s := mkDate now.date.year now.date.month (now.date.day - back)
  ⟨s, mkDate s.year s.month (s.day + 6), label⟩

/-- A month-aligned window: `new Date(y, fromMonth, 1)` through
`new Date(y, toMonth, 0)` (day 0 = last day of the month before
`toMonth`). -/
def monthSpanFrame (now : Now) (fromMonth toMonth : ℤ) (label : String) :
    TimeFrame :=
  ⟨mkDate now.date.year fromMonth 1, mkDate now.date.year toMonth 0, label⟩

/-- `ReportingService.parseTimeFrame`.  The query is lowercased, then the
six patterns are tried in source order; every branch returns a value and
no operation can throw, so the function is total. -/
def parseTimeFrame (query : List Char) (now : Now) : TimeFrame :=
  let q := query.map Char.toLower
  if containsSub q patThisWeek then
    weekFrameFrom now now.weekday "This Week"
  else if containsSub q patLastWeek then
    weekFrameFrom now (now.weekday + 7) "Last Week"
  else
    match findWeeksAgo q with
    | some n => weekFrameFrom now ((n : ℤ) * 7 + now.weekday) (weeksAgoLabel n)
    | none =>
      if containsSub q patThisMonth then
        monthSpanFrame now now.date.month (now.date.month + 1) "This Month"
      else if containsSub q patLastMonth then
        monthSpanFrame now (now.date.month - 1) now.date.month "Last Month"
      else
        match findLastMonths q with
        | some n =>
          monthSpanFrame now (now.date.month - (n : ℤ)) (now.date.month + 1)
            (lastMonthsLabel n)
        | none =>
          monthSpanFrame now now.date.month (now.date.month + 1) "This Month"

/-! ### C6: precedence and the calendar-month fallback -/

lemma normDay_in_range (y m d : ℤ) (h1 : 0 < d) (h2 : d ≤ daysInMonth y m) :
    normDay y m d = ⟨y, m, d⟩ := by
  rw [normDay]
  rw [dif_neg (by omega), dif_neg (by omega)]

lemma mkDate_first_day (y m : ℤ) (h1 : 0 ≤ m) (h2 : m ≤ 11) :
    mkDate y m 1 = ⟨y, m, 1⟩ := by
  unfold mkDate
  have hdiv : (m / 12) = 0 := by omega
  have hmod : (m % 12) = m := by omega
  rw [hdiv, hmod, add_zero]
  exact normDay_in_range y m 1 one_pos
    (le_trans (by norm_num) (daysInMonth_bounds y m).1)

lemma mkDate_day_zero (y m : ℤ) (h1 : 0 ≤ m) (h2 : m ≤ 11) :
    mkDate y (m + 1) 0 = ⟨y, m, daysInMonth y m⟩ := by
  unfold mkDate
  rcases eq_or_lt_of_le h2 with h11 | hlt
  · subst h11
    have hdiv : (((11 : ℤ) + 1) / 12) = 1 := by decide
    have hmod : (((11 : ℤ) + 1) % 12) = 0 := by decide
    rw [hdiv, hmod, normDay]
    rw [dif_pos le_rfl]
    have hdiv2 : (((0 : ℤ) - 1) / 12) = -1 := by decide
    have hmod2 : (((0 : ℤ) - 1) % 12) = 11 := by decide
    rw [hdiv2, hmod2]
    have hy : y + 1 + -1 = y := by ring
    rw [hy]
    have hd11 : daysInMonth y 11 = 31 := by norm_num [daysInMonth]
    rw [hd11]
    have := normDay_in_range y 11 (0 + 31) (by norm_num) (by rw [hd11]; norm_num)
    rw [this]
    exact congrArg (JSDate.mk y 11) (by ring)
  · have hm10 : m ≤ 10 := by omega
    have hdiv : ((m + 1) / 12) = 0 := by omega
    have hmod : ((m + 1) % 12) = m + 1 := by omega
    rw [hdiv, hmod, add_zero, normDay]
    rw [dif_pos le_rfl]
    have hsub : m + 1 - 1 = m := by ring
    rw [hsub]
    have hdiv2 : (m / 12) = 0 := by omega
    have hmod2 : (m % 12) = m := by omega
    rw [hdiv2, hmod2, add_zero, zero_add]
    exact normDay_in_range y m (daysInMonth y m)
      (by have := (daysInMonth_bounds y m).1; omega) le_rfl

/-- C6: `parseTimeFrame` is total (it is a plain function into
`TimeFrame`; no operation in it can raise), it tries the six patterns
case-insensitively in exactly the order `this week`, `last week`,
`<N> weeks ago`, `this month`, `last month`, `last <N> months`, and any
query matching none of them yields the current calendar month — day 1
through the leap-year-correct last day `daysInMonth` inclusive — with
the label `This Month`. -/
theorem parseTimeFrame_precedence_and_fallback
    (query : List Char) (now : Now)
    (hm0 : 0 ≤ now.date.month) (hm1 : now.date.month ≤ 11) :
    (containsSub (query.map Char.toLower) patThisWeek = true →
      parseTimeFrame query now = weekFrameFrom now now.weekday "This Week") ∧
    (containsSub (query.map Char.toLower) patThisWeek = false →
      containsSub (query.map Char.toLower) patLastWeek = true →
      parseTimeFrame query now =
        weekFrameFrom now (now.weekday + 7) "Last Week") ∧
    (∀ n : ℕ, containsSub (query.map Char.toLower) patThisWeek = false →
      containsSub (query.map Char.toLower) patLastWeek = false →
      findWeeksAgo (query.map Char.toLower) = some n →
      parseTimeFrame query now =
        weekFrameFrom now ((n : ℤ) * 7 + now.weekday) (weeksAgoLabel n)) ∧
    (containsSub (query.map Char.toLower) patThisWeek = false →
      containsSub (query.map Char.toLower) patLastWeek = false →
      findWeeksAgo (query.map Char.toLower) = none →
      containsSub (query.map Char.toLower) patThisMonth = true →
      parseTimeFrame query now =
        monthSpanFrame now now.date.month (now.date.month + 1) "This Month") ∧
    (containsSub (query.map Char.toLower) patThisWeek = false →
      containsSub (query.map Char.toLower) patLastWeek = false →
      findWeeksAgo (query.map Char.toLower) = none →
      containsSub (query.map Char.toLower) patThisMonth = false →
      containsSub (query.map Char.toLower) patLastMonth = true →
      parseTimeFrame query now =
        monthSpanFrame now (now.date.month - 1) now.date.month "Last Month") ∧
    (∀ n : ℕ, containsSub (query.map Char.toLower) patThisWeek = false →
      containsSub (query.map Char.toLower) patLastWeek = false →
      findWeeksAgo (query.map Char.toLower) = none →
      containsSub (query.map Char.toLower) patThisMonth = false →
      containsSub (query.map Char.toLower) patLastMonth = false →
      findLastMonths (query.map Char.toLower) = some n →
      parseTimeFrame query now =
        monthSpanFrame now (now.date.month - (n : ℤ)) (now.date.month + 1)
          (lastMonthsLabel n)) ∧
    (containsSub (query.map Char.toLower) patThisWeek = false →
      containsSub (query.map Char.toLower) patLastWeek = false →
      findWeeksAgo (query.map Char.toLower) = none →
      containsSub (query.map Char.toLower) patThisMonth = false →
      containsSub (query.map Char.toLower) patLastMonth = false →
      findLastMonths (query.map Char.toLower) = none →
      parseTimeFrame query now =
        ⟨⟨now.date.year, now.date.month, 1⟩,
         ⟨now.date.year, now.date.month,
           daysInMonth now.date.year now.date.month⟩,
         "This Month"⟩) := by
  refine ⟨?_, ?_, ?_, ?_, ?_, ?_, ?_⟩
  · intro h1
    simp only [parseTimeFrame, h1, if_true]
  · intro h1 h2
    simp only [parseTimeFrame, h1, h2, if_true, Bool.false_eq_true, if_false]
  · intro n h1 h2 h3
    simp only [parseTimeFrame, h1, h2, h3, Bool.false_eq_true, if_false]
  · intro h1 h2 h3 h4
    simp only [parseTimeFrame, h1, h2, h3, h4, if_true, Bool.false_eq_true,
      if_false]
  · intro h1 h2 h3 h4 h5
    simp only [parseTimeFrame, h1, h2, h3, h4, h5, if_true, Bool.false_eq_true,
      if_false]
  · intro n h1 h2 h3 h4 h5 h6
    simp only [parseTimeFrame, h1, h2, h3, h4, h5, h6, Bool.false_eq_true,
      if_false]
  · intro h1 h2 h3 h4 h5 h6
    simp only [parseTimeFrame, h1, h2, h3, h4, h5, h6, Bool.false_eq_true,
      if_false]
    unfold monthSpanFrame
    rw [mkDate_first_day now.date.year now.date.month hm0 hm1,
      mkDate_day_zero now.date.year now.date.month hm0 hm1]

/-- A query matching no pattern, evaluated in February 2024: the fallback
window is Feb 1 through Feb 29 (leap year), labelled This Month. -/
def gibberishQuery : List Char := "gibberish".toList

def februaryNow : Now := ⟨⟨2024, 1, 15⟩, 4⟩

theorem parseTimeFrame_precedence_and_fallback_witness :
    parseTimeFrame gibberishQuery februaryNow =
      ⟨⟨2024, 1, 1⟩, ⟨2024, 1, 29⟩, "This Month"⟩ := by
  have h := (parseTimeFrame_precedence_and_fallback gibberishQuery februaryNow
      (by norm_num [februaryNow]) (by norm_num [februaryNow])).2.2.2.2.2.2
  rw [h (by decide) (by decide) (by decide) (by decide) (by decide) (by decide)]
  norm_num [februaryNow, daysInMonth, isLeap]

end TrackPendapatan
